import Mathlib

/-!
Shallow embedding of `src/training/finetune_yolo_anticheat.py`.

The script is a sequential ETL pipeline: download datasets, normalize label
classes through a synonym table, merge datasets into one output tree, then
train. We model the pure data transformations (class normalization, label
conversion, dataset merging, the fetcher's skip logic) over an explicit
filesystem state. Python strings are modelled by Lean `String` with
list-of-char based helpers mirroring `str.lower`, `str.strip`, `str.split`,
`' '.join`, `int(...)` and negative list indexing.
-/

namespace AntiCheat

/-- `TARGET_CLASSES = ['person', 'phone', 'material', 'headphones']` -/
def TARGET_CLASSES : List String := ["person", "phone", "material", "headphones"]

/-- `ROBOFLOW_DATASETS`: the (name, url) pairs, in source order. -/
def ROBOFLOW_DATASETS : List (String × String) :=
  [ ("phone_1", "https://app.roboflow.com/ds/5ReObgnLbQ?key=HTPSgVzDLW"),
    ("phone_2", "https://app.roboflow.com/ds/f9k54F7Azq?key=eYssUekSYc"),
    ("paper_1", "https://app.roboflow.com/ds/inuabMtp6t?key=jbu7HTlrBf"),
    ("paper_2", "https://app.roboflow.com/ds/b4oxAhlW40?key=4A761Kjm5F"),
    ("headphones_1", "https://app.roboflow.com/ds/qqqEeSKAlk?key=GT1Xa65onI"),
    ("headphones_2", "https://app.roboflow.com/ds/cKHwOqmuda?key=qL10KsWlBt"),
    ("person_1", "https://app.roboflow.com/ds/PwRwV0c1jL?key=FgXbXeqlpH") ]

/-- `CLASS_MAPPING`: insertion-ordered association list modelling the Python
dict (all keys are distinct, so dict and association list agree). -/
def CLASS_MAPPING : List (String × String) :=
  [ ("person", "person"), ("student", "person"), ("face", "person"),
    ("head", "person"), ("human", "person"), ("people", "person"),
    ("man", "person"), ("woman", "person"),
    ("phone", "phone"), ("mobile", "phone"), ("cell phone", "phone"),
    ("telephone", "phone"), ("smartphone", "phone"), ("cellphone", "phone"),
    ("mobile phone", "phone"), ("iphone", "phone"), ("android", "phone"),
    ("paper", "material"), ("document", "material"), ("book", "material"),
    ("notebook", "material"), ("notes", "material"), ("sheet", "material"),
    ("material", "material"), ("cheat sheet", "material"),
    ("headphone", "headphones"), ("headphones", "headphones"),
    ("earphone", "headphones"), ("earphones", "headphones"),
    ("headset", "headphones"), ("earbuds", "headphones"),
    ("earbud", "headphones"), ("airpods", "headphones"),
    ("ear device", "headphones") ]

/-! ### Python string primitives -/

/-- `str.lower`, character-wise (the script only lowercases ASCII label text). -/
def pyLower (s : String) : String := String.mk (s.data.map Char.toLower)

/-- Strip leading and trailing whitespace from a character list (`str.strip`). -/
def stripChars (cs : List Char) : List Char :=
  ((cs.dropWhile Char.isWhitespace).reverse.dropWhile Char.isWhitespace).reverse

/-- `str.strip` (whitespace on both ends). -/
def pyStrip (s : String) : String := String.mk (stripChars s.data)

/-- `s.lower().strip()` as performed by `normalize_class`. -/
def pyLowerStrip (s : String) : String := pyStrip (pyLower s)

/-- Accumulator-style word splitter over characters: maximal runs of
non-whitespace characters, in order. -/
def wordsAux : List Char → List Char → List (List Char)
  | [], acc => if acc.isEmpty then [] else [acc.reverse]
  | c :: cs, acc =>
    if c.isWhitespace then
      if acc.isEmpty then wordsAux cs [] else acc.reverse :: wordsAux cs []
    else wordsAux cs (c :: acc)

/-- `str.split()` with no separator: split on whitespace runs, no empty words. -/
def pySplit (s : String) : List String := (wordsAux s.data []).map String.mk

/-- `' '.join(parts)`. -/
def joinSpace : List String → String
  | [] => ""
  | [x] => x
  | x :: xs => x ++ " " ++ joinSpace xs

/-- `int(s)` for an optionally signed decimal numeral (surrounding whitespace
stripped); `none` models the `ValueError` raise. -/
def pyInt (s : String) : Option Int :=
  let t := stripChars s.data
  match t with
  | [] => none
  | c :: rest =>
    let sign : Int := if c = '-' then -1 else 1
    let digits := if c = '-' ∨ c = '+' then rest else c :: rest
    if digits.isEmpty ∨ ¬ digits.all Char.isDigit then none
    else some (sign * (digits.foldl (fun n d => n * 10 + (d.toNat - 48)) 0 : Nat))

/-- Python list indexing `xs[i]` with negative-index wraparound; `none`
models the `IndexError` raise. -/
def pyGet (xs : List String) (i : Int) : Option String :=
  if 0 ≤ i then xs.get? i.toNat
  else
    let j : Int := (xs.length : Int) + i
    if 0 ≤ j then xs.get? j.toNat else none

/-- `img_file.lower().endswith(('.jpg', '.jpeg', '.png'))`; suffix test on
the character lists. -/
def hasImageExt (s : String) : Bool :=
  List.isSuffixOf ".jpg".data (pyLower s).data ||
    List.isSuffixOf ".jpeg".data (pyLower s).data ||
    List.isSuffixOf ".png".data (pyLower s).data

/-- `os.path.splitext(s)[0]` for a plain filename: drop the last-dot
extension unless the name consists only of leading dots. -/
def splitextRoot (s : String) : String :=
  let cs := s.data
  match cs.reverse.findIdx? (fun c => c = '.') with
  | none => s
  | some j =>
    let i := cs.length - 1 - j
    if (cs.take i).any (fun c => c ≠ '.') then String.mk (cs.take i) else s

/-! ### normalize_class -/

/-- `normalize_class`: lowercase and strip the input, scan `CLASS_MAPPING` in
order for a key whose lowercase form equals it, and return the index of the
mapped target in `TARGET_CLASSES`; `-1` for an unknown class. -/
def normalize_class (class_name : String) : Int :=
  let c := pyLowerStrip class_name
  match CLASS_MAPPING.find? (fun kv => pyLower kv.1 == c) with
  | some kv => (TARGET_CLASSES.indexOf kv.2 : Int)
  | none => -1

/-! ### Filesystem model

A source dataset directory is modelled by the parts `convert_labels` reads:
the class-name list from `data.yaml` (already coerced to a list, covering the
dict-of-names case), and for each of the three source split names an optional
images directory (its `os.listdir` listing) together with the label files
that exist next to it (filename to content lines). The merged output split is
a pair of file stores (filename to content) where a write replaces any
earlier binding of the same name, as `shutil.copy` / `open(..., 'w')` do. -/

/-- One source split directory: image-dir listing plus label files. -/
structure SplitDir where
  imgFiles : List String
  labels : List (String × List String)
deriving DecidableEq, Repr

/-- One source dataset: `data.yaml` class names (`none` when no `data.yaml`
is found anywhere under the dataset root), and the three split directories
(`none` when the images directory does not exist). -/
structure Dataset where
  dataYaml : Option (List String)
  train : Option SplitDir
  valid : Option SplitDir
  test : Option SplitDir
deriving DecidableEq, Repr

/-- Write `v` under key `k`, replacing any earlier binding of `k`. -/
def fsWrite (store : List (String × α)) (k : String) (v : α) :
    List (String × α) :=
  (store.filter (fun p => p.1 ≠ k)) ++ [(k, v)]

/-- The merged `.../split/images` and `.../split/labels` directories. An
image entry records the source path it was copied from; a label entry
records the written lines (the file content is their newline join). -/
structure OutSplit where
  images : List (String × String)
  labels : List (String × List String)
deriving DecidableEq, Repr

/-- Freshly created (empty) output split directories. -/
def emptyOut : OutSplit := ⟨[], []⟩

/-! ### convert_labels -/

/-- The conversion applied to one annotation line: drop it when it has fewer
than 5 whitespace-separated fields; parse the first field as an `int`
(`.error` models the `ValueError` crash); keep the line, with the class
field replaced by the canonical index, exactly when `old_class_id <
len(source_classes)` holds, the (possibly negative) index resolves in the
class list (`.error` models the `IndexError` crash), and `normalize_class`
knows the class name; `.ok none` is a silent drop. -/
def convertLine (source_classes : List String) (line : String) :
    Except String (Option String) :=
  if (pySplit (pyStrip line)).length < 5 then .ok none
  else
    match pyInt ((pySplit (pyStrip line)).headD "") with
    | none => .error "ValueError"
    | some old_class_id =>
      if old_class_id < (source_classes.length : Int) then
        match pyGet source_classes old_class_id with
        | none => .error "IndexError"
        | some old_class_name =>
          if 0 ≤ normalize_class old_class_name then
            .ok (some (joinSpace (toString (normalize_class old_class_name)
              :: (pySplit (pyStrip line)).tail)))
          else .ok none
      else .ok none

/-- The `new_lines` list built from one source label file, in order. -/
def convertLines (source_classes : List String) (lines : List String) :
    Except String (List String) :=
  lines.foldlM
    (fun acc l =>
      (convertLine source_classes l).map
        (fun r => match r with | none => acc | some s => acc ++ [s]))
    []

/-- Processing of one `os.listdir` entry: skip non-image extensions;
otherwise copy the image under its dataset-prefixed name, and if a paired
label file exists, convert its lines and write the converted file (and bump
the count) exactly when at least one line survived. -/
def processFile (dsName : String) (source_classes : List String)
    (splitName : String) (sd : SplitDir) (imgFile : String)
    (st : OutSplit × Nat) : Except String (OutSplit × Nat) :=
  if hasImageExt imgFile then
    match sd.labels.lookup (splitextRoot imgFile ++ ".txt") with
    | none =>
      .ok (⟨fsWrite st.1.images (dsName ++ "_" ++ imgFile)
        (dsName ++ "/" ++ splitName ++ "/images/" ++ imgFile),
        st.1.labels⟩, st.2)
    | some lines =>
      (convertLines source_classes lines).map (fun new_lines =>
        if new_lines.isEmpty then
          (⟨fsWrite st.1.images (dsName ++ "_" ++ imgFile)
            (dsName ++ "/" ++ splitName ++ "/images/" ++ imgFile),
            st.1.labels⟩, st.2)
        else
          (⟨fsWrite st.1.images (dsName ++ "_" ++ imgFile)
            (dsName ++ "/" ++ splitName ++ "/images/" ++ imgFile),
            fsWrite st.1.labels
              (dsName ++ "_" ++ (splitextRoot imgFile ++ ".txt"))
              new_lines⟩, st.2 + 1))
  else .ok st

/-- Processing of one source split name: skipped when its images directory
does not exist, otherwise a pass over the directory listing. -/
def processSplit (dsName : String) (source_classes : List String)
    (p : String × Option SplitDir) (st : OutSplit × Nat) :
    Except String (OutSplit × Nat) :=
  match p.2 with
  | none => .ok st
  | some sd =>
    sd.imgFiles.foldlM
      (fun st imgFile => processFile dsName source_classes p.1 sd imgFile st)
      st

/-- `convert_labels(dataset_dir, output_dir, split)`: no `data.yaml` means a
logged skip returning 0 with nothing contributed; otherwise every one of the
source splits `train`, `valid`, `test` is folded into the single output
split the call was given. -/
def convert_labels (dsName : String) (ds : Dataset) (out : OutSplit) :
    Except String (OutSplit × Nat) :=
  match ds.dataYaml with
  | none => .ok (out, 0)
  | some source_classes =>
    [("train", ds.train), ("valid", ds.valid), ("test", ds.test)].foldlM
      (fun st p => processSplit dsName source_classes p st) (out, 0)

/-! ### prepare_dataset -/

/-- The merged output directory: the two output splits plus the class names
written into the merged `data.yaml`. -/
structure MergedFS where
  train : OutSplit
  valid : OutSplit
  yamlNames : List String
deriving DecidableEq, Repr

/-- `shutil.rmtree(output_dir)` guarded by `os.path.exists`: whatever was
there before, afterwards no merged output directory exists. -/
def clearedOutput (prev : Option MergedFS) : Option MergedFS :=
  match prev with
  | some _ => none
  | none => none

/-- The per-dataset body of `prepare_dataset`: skip a dataset whose raw
directory does not exist, otherwise run `convert_labels` for the `train`
and then the `valid` output split and accumulate both counts. -/
def mergeStep (raw : List (String × Dataset))
    (st : OutSplit × OutSplit × Nat × Nat) (entry : String × String) :
    Except String (OutSplit × OutSplit × Nat × Nat) :=
  match raw.lookup entry.1 with
  | none => .ok st
  | some ds =>
    (convert_labels entry.1 ds st.1).bind (fun p1 =>
      (convert_labels entry.1 ds st.2.1).bind (fun p2 =>
        .ok (p1.1, p2.1, st.2.2.1 + p1.2, st.2.2.2 + p2.2)))

/-- The state the merge loop starts from: the `train` and `valid` output
splits right after the unconditional clear (hence always fresh and empty,
recreated by `os.makedirs` inside `convert_labels`). -/
def mergeStart (prev : Option MergedFS) : OutSplit × OutSplit :=
  match clearedOutput prev with
  | none => (emptyOut, emptyOut)
  | some fs => (fs.train, fs.valid)

theorem mergeStart_eq (prev : Option MergedFS) :
    mergeStart prev = (emptyOut, emptyOut) := by
  cases prev <;> rfl

/-- `prepare_dataset(raw_dir, output_dir)`: unconditionally clear any prior
merged output, rebuild both splits from every configured dataset present in
the raw directory, then write the merged `data.yaml` naming
`TARGET_CLASSES`. Returns the end state with the two accumulated counts. -/
def prepare_dataset (prev : Option MergedFS)
    (raw : List (String × Dataset)) : Except String (MergedFS × Nat × Nat) :=
  (ROBOFLOW_DATASETS.foldlM (mergeStep raw)
      ((mergeStart prev).1, (mergeStart prev).2, 0, 0)).bind
    (fun q =>
      .ok ({ train := q.1, valid := q.2.1, yamlNames := TARGET_CLASSES },
        q.2.2.1, q.2.2.2))

/-! ### download_datasets -/

/-- The observable state of the fetcher: which per-dataset directories exist
under the output directory, and how many network downloads have run. -/
structure FetchState where
  dirs : List String
  networkCalls : Nat
deriving DecidableEq, Repr

/-- One iteration of the fetch loop: skip when a directory of that name
already exists; otherwise create the directory and run the
download/extract/delete sequence (one network call). -/
def fetchStep (st : FetchState) (entry : String × String) : FetchState :=
  if entry.1 ∈ st.dirs then st
  else { dirs := st.dirs ++ [entry.1], networkCalls := st.networkCalls + 1 }

/-- `download_datasets(output_dir)`: the fetch loop over
`ROBOFLOW_DATASETS`. -/
def download_datasets (st : FetchState) : FetchState :=
  ROBOFLOW_DATASETS.foldl fetchStep st

/-! ### Generic lemmas about the `Except`-valued folds -/

theorem exceptBind_ok {ε α β : Type} (x : α) (f : α → Except ε β) :
    ((Except.ok x : Except ε α) >>= f) = f x := rfl

theorem exceptBind_error {ε α β : Type} (e : ε) (f : α → Except ε β) :
    ((Except.error e : Except ε α) >>= f) = Except.error e := rfl

theorem except_bind_ok {ε α β : Type} (x : α) (f : α → Except ε β) :
    (Except.ok x : Except ε α).bind f = f x := rfl

theorem except_bind_error {ε α β : Type} (e : ε) (f : α → Except ε β) :
    (Except.error e : Except ε α).bind f = Except.error e := rfl

theorem except_map_ok {ε α β : Type} (f : α → β) (x : α) :
    Except.map f (Except.ok x : Except ε α) = Except.ok (f x) := rfl

theorem except_map_error {ε α β : Type} (f : α → β) (e : ε) :
    Except.map f (Except.error e : Except ε α) = Except.error e := rfl

/-- A property preserved by every successful step of an `Except` fold holds
of the final state. -/
theorem foldlM_inv {σ α : Type} {step : σ → α → Except String σ}
    {P : σ → Prop} :
    ∀ (l : List α) (s s₂ : σ),
      (∀ t a t₁, a ∈ l → step t a = Except.ok t₁ → P t → P t₁) →
      List.foldlM step s l = Except.ok s₂ → P s → P s₂
  | [], _, _, _, h, hP => by
      simp only [List.foldlM_nil] at h
      cases h
      exact hP
  | a :: l, s, s₂, hstep, h, hP => by
      rw [List.foldlM_cons] at h
      cases hsa : step s a with
      | error e =>
          rw [hsa, exceptBind_error] at h
          exact Except.noConfusion h
      | ok t₁ =>
          rw [hsa, exceptBind_ok] at h
          exact foldlM_inv l t₁ s₂
            (fun t b t₂ hb => hstep t b t₂ (List.mem_cons_of_mem _ hb)) h
            (hstep s a t₁ (List.mem_cons_self _ _) hsa hP)

/-- A property established by the step on some list element and preserved by
every step holds of the final state of a successful `Except` fold. -/
theorem foldlM_estab {σ α : Type} {step : σ → α → Except String σ}
    {P : σ → Prop} :
    ∀ (l : List α) (a : α) (s s₂ : σ), a ∈ l →
      (∀ t t₁, step t a = Except.ok t₁ → P t₁) →
      (∀ t b t₁, b ∈ l → step t b = Except.ok t₁ → P t → P t₁) →
      List.foldlM step s l = Except.ok s₂ → P s₂
  | [], _, _, _, ha, _, _, _ => absurd ha (List.not_mem_nil _)
  | b :: l, a, s, s₂, ha, hset, hpres, h => by
      rw [List.foldlM_cons] at h
      cases hsb : step s b with
      | error e =>
          rw [hsb, exceptBind_error] at h
          exact Except.noConfusion h
      | ok t₁ =>
          rw [hsb, exceptBind_ok] at h
          rcases List.mem_cons.mp ha with rfl | ha
          · exact foldlM_inv l t₁ s₂
              (fun t c t₂ hc => hpres t c t₂ (List.mem_cons_of_mem _ hc)) h
              (hset s t₁ hsb)
          · exact foldlM_estab l a t₁ s₂ ha hset
              (fun t c t₂ hc => hpres t c t₂ (List.mem_cons_of_mem _ hc)) h

/-! ### Lemmas about the file-store writes -/

theorem fsWrite_mem {α : Type} {store : List (String × α)} {k : String}
    {v : α} {e : String × α} (h : e ∈ fsWrite store k v) :
    e ∈ store ∨ e = (k, v) := by
  unfold fsWrite at h
  rcases List.mem_append.mp h with h1 | h1
  · exact Or.inl (List.mem_of_mem_filter h1)
  · right
    simpa using h1

theorem fsWrite_key_self {α : Type} (store : List (String × α)) (k : String)
    (v : α) : k ∈ (fsWrite store k v).map Prod.fst := by
  unfold fsWrite
  simp

theorem fsWrite_key_mono {α : Type} {store : List (String × α)} {x : String}
    (k : String) (v : α) (h : x ∈ store.map Prod.fst) :
    x ∈ (fsWrite store k v).map Prod.fst := by
  unfold fsWrite
  by_cases hx : x = k
  · subst hx
    simp
  · rcases List.mem_map.mp h with ⟨e, he, hfst⟩
    refine List.mem_map.mpr ⟨e, List.mem_append.mpr (Or.inl ?_), hfst⟩
    refine List.mem_filter.mpr ⟨he, ?_⟩
    simp only [decide_eq_true_eq]
    intro hek
    exact hx (hfst ▸ hek ▸ rfl)

/-! ### Lemmas about the Python string primitives -/

theorem toNat_ofNat_of_valid {n : Nat} (h : n.isValidChar) :
    (Char.ofNat n).toNat = n := by
  rw [Char.ofNat, dif_pos h]
  rfl

/-- `Char.toLower` is idempotent: lowering an already-lowered character does
nothing (the lowered image of A..Z lies in a..z). -/
theorem toLower_toLower (c : Char) : c.toLower.toLower = c.toLower := by
  unfold Char.toLower
  by_cases h : c.toNat ≥ 65 ∧ c.toNat ≤ 90
  · rw [if_pos h]
    have hv : (c.toNat + 32).isValidChar := Or.inl (by omega)
    have ht : (Char.ofNat (c.toNat + 32)).toNat = c.toNat + 32 :=
      toNat_ofNat_of_valid hv
    rw [if_neg]
    rw [ht]
    omega
  · rw [if_neg h, if_neg h]

theorem stripChars_eq (cs : List Char) :
    stripChars cs =
      List.rdropWhile Char.isWhitespace
        (List.dropWhile Char.isWhitespace cs) := rfl

theorem stripChars_subset (cs : List Char) :
    ∀ c ∈ stripChars cs, c ∈ cs := by
  intro c hc
  rw [stripChars_eq] at hc
  have h1 := (List.rdropWhile_prefix
    Char.isWhitespace (List.dropWhile Char.isWhitespace cs)).sublist.subset hc
  exact (List.dropWhile_suffix Char.isWhitespace).sublist.subset h1

/-- The first element surviving a `dropWhile` fails the predicate. -/
theorem dropWhile_eq_cons_not {α : Type} {p : α → Bool} {l : List α} {a : α}
    {t : List α} (h : l.dropWhile p = a :: t) : p a = false := by
  induction l with
  | nil => simp [List.dropWhile] at h
  | cons x xs ih =>
      rw [List.dropWhile_cons] at h
      by_cases hx : p x = true
      · rw [if_pos hx] at h
        exact ih h
      · rw [if_neg hx] at h
        cases h
        simpa using hx

/-- Stripping whitespace from both ends is idempotent. -/
theorem stripChars_idem (cs : List Char) :
    stripChars (stripChars cs) = stripChars cs := by
  rw [stripChars_eq cs, stripChars_eq]
  cases hzc : List.rdropWhile Char.isWhitespace
      (List.dropWhile Char.isWhitespace cs) with
  | nil => simp
  | cons a t =>
      obtain ⟨t2, ht2⟩ :=
        List.rdropWhile_prefix Char.isWhitespace
          (List.dropWhile Char.isWhitespace cs)
      rw [hzc] at ht2
      have hy2 : List.dropWhile Char.isWhitespace cs = a :: (t ++ t2) := by
        rw [← ht2]
        rfl
      have hna : Char.isWhitespace a = false := dropWhile_eq_cons_not hy2
      have hdw : List.dropWhile Char.isWhitespace (a :: t) = a :: t := by
        rw [List.dropWhile_cons, if_neg (by simp [hna])]
      rw [hdw, ← hzc, List.rdropWhile_idempotent]

theorem pyStrip_data (s : String) : (pyStrip s).data = stripChars s.data := rfl

theorem pyLower_data (s : String) :
    (pyLower s).data = s.data.map Char.toLower := rfl

/-- Lowercasing after `lower().strip()` does nothing: every character of the
stripped, lowered string is already lowered. -/
theorem pyLower_pyLowerStrip (s : String) :
    pyLower (pyLowerStrip s) = pyLowerStrip s := by
  have hfix : ∀ c ∈ (pyLowerStrip s).data, Char.toLower c = id c := by
    intro c hc
    have hc2 : c ∈ stripChars (pyLower s).data := hc
    have hmem : c ∈ s.data.map Char.toLower := stripChars_subset _ c hc2
    rcases List.mem_map.mp hmem with ⟨b, _, rfl⟩
    exact toLower_toLower b
  have h2 : (pyLowerStrip s).data.map Char.toLower = (pyLowerStrip s).data :=
    (List.map_congr_left hfix).trans (List.map_id _)
  show String.mk ((pyLowerStrip s).data.map Char.toLower) = pyLowerStrip s
  rw [h2]

/-- `s.lower().strip()` is idempotent. -/
theorem pyLowerStrip_idem (s : String) :
    pyLowerStrip (pyLowerStrip s) = pyLowerStrip s := by
  show pyStrip (pyLower (pyLowerStrip s)) = pyLowerStrip s
  rw [pyLower_pyLowerStrip]
  show String.mk (stripChars (pyLowerStrip s).data) = pyLowerStrip s
  have hd : (pyLowerStrip s).data = stripChars (pyLower s).data := rfl
  rw [hd, stripChars_idem]
  rfl

/-! ### Lemmas about word splitting and joining -/

theorem wordsAux_append_word :
    ∀ (w cs acc : List Char),
      (∀ c ∈ w, Char.isWhitespace c = false) →
      wordsAux (w ++ cs) acc = wordsAux cs (w.reverse ++ acc)
  | [], _, _, _ => rfl
  | c :: w, cs, acc, h => by
      have hc : Char.isWhitespace c = false := h c (List.mem_cons_self _ _)
      have h1 : wordsAux ((c :: w) ++ cs) acc = wordsAux (w ++ cs) (c :: acc) := by
        show wordsAux (c :: (w ++ cs)) acc = wordsAux (w ++ cs) (c :: acc)
        simp [wordsAux, hc]
      rw [h1, wordsAux_append_word w cs (c :: acc)
        (fun d hd => h d (List.mem_cons_of_mem _ hd))]
      simp [List.append_assoc]

/-- Flushing a nonempty accumulator at the end of the input. -/
theorem wordsAux_nil_flush (a : Char) (acc : List Char) :
    wordsAux [] (a :: acc) = [(a :: acc).reverse] := rfl

/-- A space flushes a nonempty accumulator. -/
theorem wordsAux_space_flush (a : Char) (acc cs : List Char) :
    wordsAux (' ' :: cs) (a :: acc) = (a :: acc).reverse :: wordsAux cs [] := rfl

/-- Splitting the space-join of nonempty whitespace-free words recovers
exactly those words. -/
theorem words_join :
    ∀ (ts : List String), ts ≠ [] →
      (∀ t ∈ ts, t.data ≠ [] ∧ ∀ c ∈ t.data, Char.isWhitespace c = false) →
      wordsAux (joinSpace ts).data [] = ts.map String.data
  | [], h, _ => absurd rfl h
  | [t], _, hg => by
      have ht := hg t (List.mem_singleton.mpr rfl)
      have h1 : wordsAux (t.data ++ []) [] = wordsAux [] (t.data.reverse ++ []) :=
        wordsAux_append_word t.data [] [] ht.2
      rw [List.append_nil, List.append_nil] at h1
      cases hrev : t.data.reverse with
      | nil => exact absurd (by simpa using hrev) ht.1
      | cons a as =>
          show wordsAux t.data [] = [t.data]
          rw [h1, hrev, wordsAux_nil_flush, ← hrev, List.reverse_reverse]
  | t :: t2 :: rest, _, hg => by
      have ht := hg t (List.mem_cons_self _ _)
      have ih := words_join (t2 :: rest) (by simp)
        (fun u hu => hg u (List.mem_cons_of_mem _ hu))
      have hdata : (joinSpace (t :: t2 :: rest)).data
          = t.data ++ (' ' :: (joinSpace (t2 :: rest)).data) := by
        show (t ++ " " ++ joinSpace (t2 :: rest)).data = _
        rw [String.data_append, String.data_append]
        simp [List.append_assoc]
      rw [hdata, wordsAux_append_word t.data _ [] ht.2, List.append_nil]
      cases hrev : t.data.reverse with
      | nil => exact absurd (by simpa using hrev) ht.1
      | cons a as =>
          have had : (a :: as).reverse = t.data := by
            rw [← hrev, List.reverse_reverse]
          rw [wordsAux_space_flush, had, ih]
          rfl

theorem pySplit_joinSpace (ts : List String) (h : ts ≠ [])
    (hg : ∀ t ∈ ts, t.data ≠ [] ∧ ∀ c ∈ t.data, Char.isWhitespace c = false) :
    pySplit (joinSpace ts) = ts := by
  unfold pySplit
  rw [words_join ts h hg, List.map_map]
  apply (List.map_congr_left ?_).trans (List.map_id _)
  intro t _
  rfl

/-- Every word produced by the splitter is nonempty and whitespace-free. -/
theorem wordsAux_good :
    ∀ (cs acc : List Char),
      (∀ c ∈ acc, Char.isWhitespace c = false) →
      ∀ w ∈ wordsAux cs acc, w ≠ [] ∧ ∀ c ∈ w, Char.isWhitespace c = false
  | [], acc, hacc => by
      intro w hw
      cases acc with
      | nil => simp [wordsAux] at hw
      | cons a as =>
          rw [wordsAux_nil_flush] at hw
          rcases List.mem_singleton.mp hw with rfl
          refine ⟨by simp, ?_⟩
          intro c hc
          exact hacc c (List.mem_reverse.mp hc)
  | c :: cs, acc, hacc => by
      intro w hw
      by_cases hc : Char.isWhitespace c = true
      · cases acc with
        | nil =>
            have h1 : wordsAux (c :: cs) [] = wordsAux cs [] := by
              simp [wordsAux, hc]
            rw [h1] at hw
            exact wordsAux_good cs [] (by simp) w hw
        | cons a as =>
            have h1 : wordsAux (c :: cs) (a :: as)
                = (a :: as).reverse :: wordsAux cs [] := by
              simp [wordsAux, hc]
            rw [h1] at hw
            rcases List.mem_cons.mp hw with rfl | hw2
            · refine ⟨by simp, ?_⟩
              intro d hd
              exact hacc d (List.mem_reverse.mp hd)
            · exact wordsAux_good cs [] (by simp) w hw2
      · have hc2 : Char.isWhitespace c = false := by simpa using hc
        have h1 : wordsAux (c :: cs) acc = wordsAux cs (c :: acc) := by
          simp [wordsAux, hc2]
        rw [h1] at hw
        refine wordsAux_good cs (c :: acc) ?_ w hw
        intro d hd
        rcases List.mem_cons.mp hd with rfl | hd2
        · exact hc2
        · exact hacc d hd2

theorem pySplit_good (s : String) :
    ∀ t ∈ pySplit s, t.data ≠ [] ∧ ∀ c ∈ t.data, Char.isWhitespace c = false := by
  intro t ht
  unfold pySplit at ht
  rcases List.mem_map.mp ht with ⟨w, hw, rfl⟩
  exact wordsAux_good s.data [] (by simp) w hw

/-! ### Range of `normalize_class` -/

theorem normalize_class_lt_four (s : String) : normalize_class s < 4 := by
  show ((match CLASS_MAPPING.find? (fun kv => pyLower kv.1 == pyLowerStrip s) with
    | some kv => (TARGET_CLASSES.indexOf kv.2 : Int)
    | none => -1) : Int) < (4 : Int)
  cases hf : CLASS_MAPPING.find? (fun kv => pyLower kv.1 == pyLowerStrip s) with
  | none => simp
  | some kv =>
      have hmem : kv ∈ CLASS_MAPPING := List.mem_of_find?_eq_some hf
      have hall : ∀ e ∈ CLASS_MAPPING, TARGET_CLASSES.indexOf e.2 < 4 := by
        decide
      show (TARGET_CLASSES.indexOf kv.2 : Int) < 4
      exact_mod_cast hall kv hmem

/-! ### Analysis of `convertLine` -/

/-- A kept line comes from a parsed class index that passed the
`old_class_id < len(source_classes)` test, resolved in the class list, and
mapped to a known canonical class; the kept line is the canonical index
joined with the original geometry fields. -/
theorem convertLine_ok_some {sc : List String} {line r : String}
    (h : convertLine sc line = Except.ok (some r)) :
    ∃ old name, pyInt ((pySplit (pyStrip line)).headD "") = some old ∧
      old < (sc.length : Int) ∧ pyGet sc old = some name ∧
      0 ≤ normalize_class name ∧
      r = joinSpace (toString (normalize_class name)
        :: (pySplit (pyStrip line)).tail) ∧
      5 ≤ (pySplit (pyStrip line)).length := by
  unfold convertLine at h
  split at h
  · simp at h
  · rename_i hlen
    split at h
    · exact Except.noConfusion h
    · rename_i old hint
      split at h
      · rename_i hlt
        split at h
        · exact Except.noConfusion h
        · rename_i name hget
          split at h
          · rename_i hn
            simp only [Except.ok.injEq, Option.some.injEq] at h
            exact ⟨old, name, hint, hlt, hget, hn, h.symm, by omega⟩
          · simp at h
      · simp at h

/-- A line whose source class has no mapping (`normalize_class` returned the
sentinel) is silently dropped: no error, no output. -/
theorem convertLine_drop_unmapped {sc : List String} {line : String}
    {old : Int} {name : String}
    (hint : pyInt ((pySplit (pyStrip line)).headD "") = some old)
    (hlt : old < (sc.length : Int)) (hget : pyGet sc old = some name)
    (hn : normalize_class name < 0) :
    convertLine sc line = Except.ok none := by
  unfold convertLine
  split
  · rfl
  · rw [hint]
    simp [hlt, hget, Int.not_le.mpr hn]

/-- A line whose parsed class index is at least the length of the declared
class list is silently dropped. -/
theorem convertLine_drop_oob {sc : List String} {line : String} {old : Int}
    (hint : pyInt ((pySplit (pyStrip line)).headD "") = some old)
    (hge : (sc.length : Int) ≤ old) :
    convertLine sc line = Except.ok none := by
  unfold convertLine
  split
  · rfl
  · rw [hint]
    simp [Int.not_lt.mpr hge]

/-- The invariant of every annotation line present in merged output: at
least 5 whitespace-separated fields, and a first field that is the decimal
form of a canonical class index in `0..3`. -/
def GoodLine (l : String) : Prop :=
  5 ≤ (pySplit l).length ∧
    ∃ k : Int, 0 ≤ k ∧ k < 4 ∧ (pySplit l).headD "" = toString k

/-- Every line kept by `convertLine` satisfies the output invariant. -/
theorem convertLine_good {sc : List String} {line r : String}
    (h : convertLine sc line = Except.ok (some r)) : GoodLine r := by
  obtain ⟨old, name, _, _, _, hn, hr, hlen⟩ := convertLine_ok_some h
  have hk4 : normalize_class name < 4 := normalize_class_lt_four name
  have hhead : (toString (normalize_class name)).data ≠ [] ∧
      ∀ c ∈ (toString (normalize_class name)).data,
        Char.isWhitespace c = false := by
    have : normalize_class name = 0 ∨ normalize_class name = 1 ∨
        normalize_class name = 2 ∨ normalize_class name = 3 := by omega
    rcases this with h0 | h0 | h0 | h0 <;> rw [h0] <;> exact ⟨by decide, by decide⟩
  have htail : ∀ t ∈ (pySplit (pyStrip line)).tail,
      t.data ≠ [] ∧ ∀ c ∈ t.data, Char.isWhitespace c = false := by
    intro t ht
    exact pySplit_good (pyStrip line) t (List.mem_of_mem_tail ht)
  have hts : ∀ t ∈ (toString (normalize_class name)
      :: (pySplit (pyStrip line)).tail),
      t.data ≠ [] ∧ ∀ c ∈ t.data, Char.isWhitespace c = false := by
    intro t ht
    rcases List.mem_cons.mp ht with rfl | ht2
    · exact hhead
    · exact htail t ht2
  have hsplit : pySplit r = toString (normalize_class name)
      :: (pySplit (pyStrip line)).tail := by
    rw [hr]
    exact pySplit_joinSpace _ (by simp) hts
  constructor
  · rw [hsplit]
    have : (pySplit (pyStrip line)).tail.length
        = (pySplit (pyStrip line)).length - 1 := List.length_tail _
    simp only [List.length_cons, this]
    omega
  · exact ⟨normalize_class name, hn, hk4, by rw [hsplit]; rfl⟩

/-! ### The output-line invariant through the folds -/

/-- Every line of every label file in a store satisfies `GoodLine`. -/
def GoodStore (store : List (String × List String)) : Prop :=
  ∀ e ∈ store, ∀ l ∈ e.2, GoodLine l

theorem goodStore_nil : GoodStore [] := by
  intro e he
  exact absurd he (List.not_mem_nil _)

/-- One step of the `new_lines` accumulation either keeps the accumulator or
appends one line kept by `convertLine`. -/
theorem convertLinesStep_ok {sc : List String} {acc : List String}
    {l : String} {acc₁ : List String}
    (h : (convertLine sc l).map
      (fun r => match r with | none => acc | some s => acc ++ [s])
        = Except.ok acc₁) :
    acc₁ = acc ∨ ∃ s, convertLine sc l = Except.ok (some s) ∧ acc₁ = acc ++ [s] := by
  cases hcl : convertLine sc l with
  | error e =>
      rw [hcl] at h
      exact Except.noConfusion h
  | ok r =>
      rw [hcl] at h
      cases r with
      | none =>
          left
          simp only [except_map_ok, Except.ok.injEq] at h
          exact h.symm
      | some s =>
          right
          refine ⟨s, rfl, ?_⟩
          simp only [except_map_ok, Except.ok.injEq] at h
          exact h.symm

/-- Every line in a successfully converted label file satisfies the output
invariant. -/
theorem convertLines_good {sc : List String} {lines res : List String}
    (h : convertLines sc lines = Except.ok res) : ∀ r ∈ res, GoodLine r := by
  unfold convertLines at h
  refine foldlM_inv (P := fun acc => ∀ r ∈ acc, GoodLine r) lines [] res ?_ h ?_
  · intro t a t₁ _ hstep hP
    rcases convertLinesStep_ok hstep with rfl | ⟨s, hs, rfl⟩
    · exact hP
    · intro r hr
      rcases List.mem_append.mp hr with hr1 | hr1
      · exact hP r hr1
      · rcases List.mem_singleton.mp hr1 with rfl
        exact convertLine_good hs
  · intro r hr
    exact absurd hr (List.not_mem_nil _)

/-- `processFile` preserves the label-store invariant. -/
theorem processFile_labels_good {dsName : String} {sc : List String}
    {sp : String} {sd : SplitDir} {img : String} {st st₁ : OutSplit × Nat}
    (h : processFile dsName sc sp sd img st = Except.ok st₁)
    (hg : GoodStore st.1.labels) : GoodStore st₁.1.labels := by
  unfold processFile at h
  split at h
  · split at h
    · simp only [Except.ok.injEq] at h
      rw [← h]
      exact hg
    · rename_i lines hlk
      cases hcv : convertLines sc lines with
      | error e =>
          rw [hcv, except_map_error] at h
          exact Except.noConfusion h
      | ok new_lines =>
          rw [hcv, except_map_ok] at h
          simp only [Except.ok.injEq] at h
          by_cases hne : new_lines.isEmpty
          · rw [if_pos hne] at h
            rw [← h]
            exact hg
          · rw [if_neg hne] at h
            rw [← h]
            intro e he l hl
            rcases fsWrite_mem he with he1 | rfl
            · exact hg e he1 l hl
            · exact convertLines_good hcv l hl
  · simp only [Except.ok.injEq] at h
    rw [← h]
    exact hg

/-- `processSplit` preserves the label-store invariant. -/
theorem processSplit_labels_good {dsName : String} {sc : List String}
    {p : String × Option SplitDir} {st st₁ : OutSplit × Nat}
    (h : processSplit dsName sc p st = Except.ok st₁)
    (hg : GoodStore st.1.labels) : GoodStore st₁.1.labels := by
  unfold processSplit at h
  split at h
  · simp only [Except.ok.injEq] at h
    rw [← h]
    exact hg
  · rename_i sd hsd
    exact foldlM_inv (P := fun st : OutSplit × Nat => GoodStore st.1.labels)
      sd.imgFiles st st₁
      (fun t a t₁ _ hstep hP => processFile_labels_good hstep hP) h hg

/-- `convert_labels` preserves the label-store invariant. -/
theorem convert_labels_labels_good {dsName : String} {ds : Dataset}
    {out out₁ : OutSplit} {c : Nat}
    (h : convert_labels dsName ds out = Except.ok (out₁, c))
    (hg : GoodStore out.labels) : GoodStore out₁.labels := by
  unfold convert_labels at h
  split at h
  · simp only [Except.ok.injEq, Prod.mk.injEq] at h
    rw [← h.1]
    exact hg
  · rename_i sc hy
    have hres := foldlM_inv
      (P := fun st : OutSplit × Nat => GoodStore st.1.labels)
      [("train", ds.train), ("valid", ds.valid), ("test", ds.test)]
      (out, 0) (out₁, c)
      (fun t a t₁ _ hstep hP => processSplit_labels_good hstep hP) h hg
    exact hres

/-- `mergeStep` preserves the label-store invariant of both output splits. -/
theorem mergeStep_labels_good {raw : List (String × Dataset)}
    {st st₁ : OutSplit × OutSplit × Nat × Nat} {entry : String × String}
    (h : mergeStep raw st entry = Except.ok st₁)
    (hg : GoodStore st.1.labels ∧ GoodStore st.2.1.labels) :
    GoodStore st₁.1.labels ∧ GoodStore st₁.2.1.labels := by
  unfold mergeStep at h
  split at h
  · simp only [Except.ok.injEq] at h
    rw [← h]
    exact hg
  · rename_i ds hlk
    cases hc1 : convert_labels entry.1 ds st.1 with
    | error e =>
        simp only [hc1, except_bind_error] at h
        exact Except.noConfusion h
    | ok p1 =>
        obtain ⟨tr1, tc⟩ := p1
        simp only [hc1, except_bind_ok] at h
        cases hc2 : convert_labels entry.1 ds st.2.1 with
        | error e =>
            simp only [hc2, except_bind_error] at h
            exact Except.noConfusion h
        | ok p2 =>
            obtain ⟨vl1, vc⟩ := p2
            simp only [hc2, except_bind_ok, Except.ok.injEq] at h
            rw [← h]
            exact ⟨convert_labels_labels_good hc1 hg.1,
              convert_labels_labels_good hc2 hg.2⟩

/-- Both label stores of the merged output satisfy the invariant. -/
theorem prepare_dataset_labels_good {prev : Option MergedFS}
    {raw : List (String × Dataset)} {fs : MergedFS} {t v : Nat}
    (h : prepare_dataset prev raw = Except.ok (fs, t, v)) :
    GoodStore fs.train.labels ∧ GoodStore fs.valid.labels := by
  unfold prepare_dataset at h
  simp only [mergeStart_eq] at h
  cases hf : ROBOFLOW_DATASETS.foldlM (mergeStep raw)
      (emptyOut, emptyOut, 0, 0) with
  | error e =>
      simp only [hf, except_bind_error] at h
      exact Except.noConfusion h
  | ok q =>
      obtain ⟨tr, vl, tt, tv⟩ := q
      simp only [hf, except_bind_ok, Except.ok.injEq, Prod.mk.injEq] at h
      have hgood := foldlM_inv
        (P := fun st : OutSplit × OutSplit × Nat × Nat =>
          GoodStore st.1.labels ∧ GoodStore st.2.1.labels)
        ROBOFLOW_DATASETS (emptyOut, emptyOut, 0, 0) (tr, vl, tt, tv)
        (fun t a t₁ _ hstep hP => mergeStep_labels_good hstep hP) hf
        ⟨goodStore_nil, goodStore_nil⟩
      rw [← h.1]
      exact hgood

/-! ### Image copying through the folds -/

/-- A successful `processFile` step never removes an image from the merged
images folder. -/
theorem processFile_img_mono {dsName : String} {sc : List String}
    {sp : String} {sd : SplitDir} {img x : String} {st st₁ : OutSplit × Nat}
    (h : processFile dsName sc sp sd img st = Except.ok st₁)
    (hP : x ∈ st.1.images.map Prod.fst) : x ∈ st₁.1.images.map Prod.fst := by
  unfold processFile at h
  split at h
  · split at h
    · simp only [Except.ok.injEq] at h
      rw [← h]
      exact fsWrite_key_mono _ _ hP
    · rename_i lines hlk
      cases hcv : convertLines sc lines with
      | error e =>
          rw [hcv, except_map_error] at h
          exact Except.noConfusion h
      | ok new_lines =>
          rw [hcv, except_map_ok] at h
          simp only [Except.ok.injEq] at h
          by_cases hne : new_lines.isEmpty
          · rw [if_pos hne] at h
            rw [← h]
            exact fsWrite_key_mono _ _ hP
          · rw [if_neg hne] at h
            rw [← h]
            exact fsWrite_key_mono _ _ hP
  · simp only [Except.ok.injEq] at h
    rw [← h]
    exact hP

/-- `processFile` on an image-extension file always copies the image,
whatever happens with its label file. -/
theorem processFile_img_self {dsName : String} {sc : List String}
    {sp : String} {sd : SplitDir} {img : String} {st st₁ : OutSplit × Nat}
    (hext : hasImageExt img = true)
    (h : processFile dsName sc sp sd img st = Except.ok st₁) :
    (dsName ++ "_" ++ img) ∈ st₁.1.images.map Prod.fst := by
  unfold processFile at h
  rw [if_pos hext] at h
  split at h
  · simp only [Except.ok.injEq] at h
    rw [← h]
    exact fsWrite_key_self _ _ _
  · rename_i lines hlk
    cases hcv : convertLines sc lines with
    | error e =>
        rw [hcv, except_map_error] at h
        exact Except.noConfusion h
    | ok new_lines =>
        rw [hcv, except_map_ok] at h
        simp only [Except.ok.injEq] at h
        by_cases hne : new_lines.isEmpty
        · rw [if_pos hne] at h
          rw [← h]
          exact fsWrite_key_self _ _ _
        · rw [if_neg hne] at h
          rw [← h]
          exact fsWrite_key_self _ _ _

/-- A successful `processSplit` never removes an image. -/
theorem processSplit_img_mono {dsName : String} {sc : List String}
    {p : String × Option SplitDir} {x : String} {st st₁ : OutSplit × Nat}
    (h : processSplit dsName sc p st = Except.ok st₁)
    (hP : x ∈ st.1.images.map Prod.fst) : x ∈ st₁.1.images.map Prod.fst := by
  unfold processSplit at h
  split at h
  · simp only [Except.ok.injEq] at h
    rw [← h]
    exact hP
  · rename_i sd hsd
    exact foldlM_inv
      (P := fun st : OutSplit × Nat => x ∈ st.1.images.map Prod.fst)
      sd.imgFiles st st₁
      (fun t a t₁ _ hstep hP => processFile_img_mono hstep hP) h hP

set_option maxHeartbeats 1000000 in
/-- `processSplit` over an existing images directory copies every listed
image file that has a recognized extension. -/
theorem processSplit_img_present {dsName : String} {sc : List String}
    {p : String × Option SplitDir} {sd : SplitDir} {img : String}
    (hp : p.2 = some sd) (himg : img ∈ sd.imgFiles)
    (hext : hasImageExt img = true) :
    ∀ st st₁ : OutSplit × Nat,
      processSplit dsName sc p st = Except.ok st₁ →
      (dsName ++ "_" ++ img) ∈ st₁.1.images.map Prod.fst := by
  intro st st₁ h
  unfold processSplit at h
  split at h
  · rename_i hnone
    rw [hp] at hnone
    exact Option.noConfusion hnone
  · rename_i sd2 hsd
    rw [hp] at hsd
    injection hsd with hsd2
    subst hsd2
    exact foldlM_estab (P := fun st : OutSplit × Nat =>
        (dsName ++ "_" ++ img) ∈ st.1.images.map Prod.fst)
      sd.imgFiles img st st₁ himg
      (fun t t₁ hstep => processFile_img_self hext hstep)
      (fun t b t₁ _ hstep hP => processFile_img_mono hstep hP) h

/-- Every recognized image of every existing source split of a dataset with
a `data.yaml` ends up (dataset-prefixed) in the merged images folder. -/
theorem convert_labels_img_present {dsName : String} {ds : Dataset}
    {sc : List String} {spName : String} {sd : SplitDir} {img : String}
    {out out₁ : OutSplit} {c : Nat}
    (hy : ds.dataYaml = some sc)
    (hmem : (spName, some sd) ∈
      [("train", ds.train), ("valid", ds.valid), ("test", ds.test)])
    (himg : img ∈ sd.imgFiles) (hext : hasImageExt img = true)
    (h : convert_labels dsName ds out = Except.ok (out₁, c)) :
    (dsName ++ "_" ++ img) ∈ out₁.images.map Prod.fst := by
  unfold convert_labels at h
  split at h
  · rename_i hy2
    rw [hy] at hy2
    exact Option.noConfusion hy2
  · rename_i sc2 hy2
    rw [hy] at hy2
    injection hy2 with hsc
    subst hsc
    exact foldlM_estab
      (P := fun st : OutSplit × Nat =>
        (dsName ++ "_" ++ img) ∈ st.1.images.map Prod.fst)
      [("train", ds.train), ("valid", ds.valid), ("test", ds.test)]
      (spName, some sd) (out, 0) (out₁, c) hmem
      (fun t t₁ hstep => processSplit_img_present rfl himg hext t t₁ hstep)
      (fun t b t₁ _ hstep hP => processSplit_img_mono hstep hP) h

/-! ### Behaviour of `processFile` on the label side -/

/-- No paired label file: the image is still copied, the label store and the
count are untouched. -/
theorem processFile_no_label {dsName : String} {sc : List String}
    {sp : String} {sd : SplitDir} {img : String} {st : OutSplit × Nat}
    (hext : hasImageExt img = true)
    (hlk : sd.labels.lookup (splitextRoot img ++ ".txt") = none) :
    processFile dsName sc sp sd img st =
      Except.ok (⟨fsWrite st.1.images (dsName ++ "_" ++ img)
        (dsName ++ "/" ++ sp ++ "/images/" ++ img), st.1.labels⟩, st.2) := by
  unfold processFile
  rw [if_pos hext, hlk]

/-- All annotation lines dropped: the image is still copied, no label file
is written, the count is untouched. -/
theorem processFile_all_dropped {dsName : String} {sc : List String}
    {sp : String} {sd : SplitDir} {img : String} {lines : List String}
    {st : OutSplit × Nat}
    (hext : hasImageExt img = true)
    (hlk : sd.labels.lookup (splitextRoot img ++ ".txt") = some lines)
    (hcv : convertLines sc lines = Except.ok []) :
    processFile dsName sc sp sd img st =
      Except.ok (⟨fsWrite st.1.images (dsName ++ "_" ++ img)
        (dsName ++ "/" ++ sp ++ "/images/" ++ img), st.1.labels⟩, st.2) := by
  unfold processFile
  rw [if_pos hext]
  simp only [hlk]
  rw [hcv, except_map_ok]
  rfl

/-- At least one line survives: the image is copied, the converted label
file is written, and the count increments. -/
theorem processFile_label_written {dsName : String} {sc : List String}
    {sp : String} {sd : SplitDir} {img : String}
    {lines new_lines : List String} {st : OutSplit × Nat}
    (hext : hasImageExt img = true)
    (hlk : sd.labels.lookup (splitextRoot img ++ ".txt") = some lines)
    (hcv : convertLines sc lines = Except.ok new_lines)
    (hne : new_lines.isEmpty = false) :
    processFile dsName sc sp sd img st =
      Except.ok (⟨fsWrite st.1.images (dsName ++ "_" ++ img)
        (dsName ++ "/" ++ sp ++ "/images/" ++ img),
        fsWrite st.1.labels (dsName ++ "_" ++ (splitextRoot img ++ ".txt"))
          new_lines⟩, st.2 + 1) := by
  unfold processFile
  rw [if_pos hext]
  simp only [hlk]
  rw [hcv, except_map_ok]
  have hcond : ¬ (new_lines.isEmpty = true) := by simp [hne]
  rw [if_neg hcond]

/-! ### The fetcher loop -/

theorem fetchStep_skip {st : FetchState} {entry : String × String}
    (h : entry.1 ∈ st.dirs) : fetchStep st entry = st := by
  unfold fetchStep
  rw [if_pos h]

theorem fetchStep_dirs_mono {st : FetchState} {entry : String × String}
    {x : String} (h : x ∈ st.dirs) : x ∈ (fetchStep st entry).dirs := by
  unfold fetchStep
  split
  · exact h
  · exact List.mem_append.mpr (Or.inl h)

theorem runFetch_dirs_mono :
    ∀ (ps : List (String × String)) (st : FetchState) (x : String),
      x ∈ st.dirs → x ∈ (ps.foldl fetchStep st).dirs
  | [], _, _, h => h
  | p :: ps, st, x, h =>
      runFetch_dirs_mono ps (fetchStep st p) x (fetchStep_dirs_mono h)

/-- After the fetch loop, every configured dataset has a directory. -/
theorem runFetch_names_present :
    ∀ (ps : List (String × String)) (st : FetchState)
      (p : String × String), p ∈ ps → p.1 ∈ (ps.foldl fetchStep st).dirs
  | [], _, _, hp => absurd hp (List.not_mem_nil _)
  | q :: ps, st, p, hp => by
      rcases List.mem_cons.mp hp with rfl | hp2
      · refine runFetch_dirs_mono ps (fetchStep st p) p.1 ?_
        unfold fetchStep
        split
        · assumption
        · simp
      · exact runFetch_names_present ps (fetchStep st q) p hp2

/-- When every configured directory already exists, the fetch loop is a
no-op: no directory creation, no network call. -/
theorem runFetch_skip_all :
    ∀ (ps : List (String × String)) (st : FetchState),
      (∀ p ∈ ps, p.1 ∈ st.dirs) → ps.foldl fetchStep st = st
  | [], _, _ => rfl
  | p :: ps, st, h => by
      have h1 : fetchStep st p = st := fetchStep_skip (h p (List.mem_cons_self _ _))
      show List.foldl fetchStep (fetchStep st p) ps = st
      rw [h1]
      exact runFetch_skip_all ps st (fun q hq => h q (List.mem_cons_of_mem _ hq))

/-! ### Concrete datasets used by the claims -/

/-- A synthetic dataset: one image, one label line whose source class
(`Mobile`) maps through the synonym table to the canonical class `phone`. -/
def dsC1 : Dataset :=
  { dataYaml := some ["Mobile"],
    train := some ⟨["im1.jpg"], [("im1.txt", ["0 0.1 0.2 0.3 0.4"])]⟩,
    valid := none, test := none }

/-- A raw directory holding only `dsC1` under the configured name
`phone_1`. -/
def rawC1 : List (String × Dataset) := [("phone_1", dsC1)]

/-- The output split produced from `dsC1`: one renamed image, one label
file with canonical index 1 (`phone`) substituted. -/
def outC1 : OutSplit :=
  ⟨[("phone_1_im1.jpg", "phone_1/train/images/im1.jpg")],
   [("phone_1_im1.txt", ["1 0.1 0.2 0.3 0.4"])]⟩

/-- The merged tree produced from `rawC1`: the same single image and label
appear under BOTH the train and the valid split. -/
def mergedC1 : MergedFS :=
  { train := outC1, valid := outC1, yamlNames := TARGET_CLASSES }

/-- A dataset whose single annotation line carries the out-of-range class
index `-1` (not a valid position in the one-element class list). -/
def dsC2 : Dataset :=
  { dataYaml := some ["person"],
    train := some ⟨["a.jpg"], [("a.txt", ["-1 0.5 0.5 0.5 0.5"])]⟩,
    valid := none, test := none }

/-- What `convert_labels` produces from `dsC2`: the `-1` annotation is NOT
dropped — Python negative indexing resolves it to `person` and it is kept
with canonical index 0. -/
def outC2 : OutSplit :=
  ⟨[("phone_1_a.jpg", "phone_1/train/images/a.jpg")],
   [("phone_1_a.txt", ["0 0.5 0.5 0.5 0.5"])]⟩

/-- Three images: `a.jpg` with one surviving annotation, `b.png` whose
annotations are all dropped (unmapped class, out-of-range class, short
line), `c.jpeg` with no label file at all, plus a non-image `notes.txt`. -/
def dsC10 : Dataset :=
  { dataYaml := some ["person", "laptop"],
    train := some ⟨["a.jpg", "b.png", "c.jpeg", "notes.txt"],
      [("a.txt", ["0 0.1 0.2 0.3 0.4"]),
       ("b.txt", ["1 0.1 0.2 0.3 0.4", "9 0.1 0.2 0.3 0.4", "0 0.2"])]⟩,
    valid := none, test := none }

/-- Result for `dsC10`: three copied images but a single written label
file, and a returned count of 1. -/
def outC10 : OutSplit :=
  ⟨[("phone_1_a.jpg", "phone_1/train/images/a.jpg"),
    ("phone_1_b.png", "phone_1/train/images/b.png"),
    ("phone_1_c.jpeg", "phone_1/train/images/c.jpeg")],
   [("phone_1_a.txt", ["0 0.1 0.2 0.3 0.4"])]⟩

/-! ### The claims -/

/-- C1 (counterexample): on the synthetic one-image dataset the merge does
NOT produce exactly one renamed image and one label file: `convert_labels`
scans all three source splits for each output split, so `prepare_dataset`
duplicates the image and the label into both `train` and `valid` — two
image files and two label files in the merged output directory. -/
theorem claim_C1_counterexample :
    prepare_dataset none rawC1 = Except.ok (mergedC1, 1, 1) ∧
    mergedC1.train.images.length + mergedC1.valid.images.length ≠ 1 ∧
    mergedC1.train.labels.length + mergedC1.valid.labels.length ≠ 1 :=
  ⟨rfl, by decide, by decide⟩

/-- C1 (amended): on the synthetic one-image dataset whose label line maps
through the synonym table, each output split of the merged directory
contains exactly one renamed image and exactly one label file whose single
annotation carries the correct canonical index (1, `phone`); the train and
valid outputs are identical duplicates. -/
theorem claim_C1 :
    prepare_dataset none rawC1 = Except.ok (mergedC1, 1, 1) ∧
    mergedC1.train.images = [("phone_1_im1.jpg", "phone_1/train/images/im1.jpg")] ∧
    mergedC1.train.labels = [("phone_1_im1.txt", ["1 0.1 0.2 0.3 0.4"])] ∧
    mergedC1.valid = mergedC1.train ∧
    normalize_class "Mobile" = 1 :=
  ⟨rfl, rfl, rfl, rfl, by decide⟩

/-- C2 (counterexample): an annotation whose original class index `-1` is
not a valid position in the declared class list `["person"]` is
nevertheless present in the merged output: the upper-bound-only check lets
the negative index through and Python negative indexing resolves it to the
last class, so the line is kept (rewritten to canonical index 0) rather
than dropped. -/
theorem claim_C2_counterexample :
    pyInt ((pySplit (pyStrip "-1 0.5 0.5 0.5 0.5")).headD "") = some (-1) ∧
    ¬ (0 ≤ (-1 : Int) ∧ (-1 : Int) < ((["person"] : List String).length : Int)) ∧
    convertLine ["person"] "-1 0.5 0.5 0.5 0.5"
      = Except.ok (some "0 0.5 0.5 0.5 0.5") ∧
    convert_labels "phone_1" dsC2 emptyOut = Except.ok (outC2, 1) ∧
    ("phone_1_a.txt", ["0 0.5 0.5 0.5 0.5"]) ∈ outC2.labels :=
  ⟨rfl, by decide, rfl, rfl, by decide⟩

/-- C2 (amended): an annotation line whose parsed class index is at least
the length of the dataset's declared class list is never present in the
merged output — `convertLine` silently drops it. (Negative indices are not
dropped in general; see the counterexample.) -/
theorem claim_C2 (sc : List String) (line : String) (old : Int)
    (hint : pyInt ((pySplit (pyStrip line)).headD "") = some old)
    (hge : (sc.length : Int) ≤ old) :
    convertLine sc line = Except.ok none :=
  convertLine_drop_oob hint hge

/-- C2 (witness): a concrete out-of-range (too large) index is dropped. -/
theorem claim_C2_witness :
    pyInt ((pySplit (pyStrip "5 0.1 0.2 0.3 0.4")).headD "") = some 5 ∧
    ((["person"] : List String).length : Int) ≤ 5 ∧
    convertLine ["person"] "5 0.1 0.2 0.3 0.4" = Except.ok none :=
  ⟨rfl, by decide,
    claim_C2 ["person"] "5 0.1 0.2 0.3 0.4" 5 rfl (by decide)⟩

/-- C3: every string present in the synonym table is mapped by
`normalize_class` to the index of its target class in `TARGET_CLASSES`, and
every string the (case-insensitive) lookup does not find is mapped to the
sentinel `-1`. -/
theorem claim_C3 :
    (∀ t ∈ CLASS_MAPPING,
      normalize_class t.1 = (TARGET_CLASSES.indexOf t.2 : Int)) ∧
    (∀ s : String,
      CLASS_MAPPING.find? (fun kv => pyLower kv.1 == pyLowerStrip s) = none →
      normalize_class s = -1) := by
  constructor
  · decide
  · intro s h
    show ((match CLASS_MAPPING.find? (fun kv => pyLower kv.1 == pyLowerStrip s) with
      | some kv => (TARGET_CLASSES.indexOf kv.2 : Int)
      | none => -1) : Int) = -1
    rw [h]

/-- C3 (witness): `mobile` is in the table and maps to index 1 (`phone`);
`laptop` is absent and maps to `-1`. -/
theorem claim_C3_witness :
    ("mobile", "phone") ∈ CLASS_MAPPING ∧
    normalize_class "mobile" = (TARGET_CLASSES.indexOf "phone" : Int) ∧
    CLASS_MAPPING.find?
      (fun kv => pyLower kv.1 == pyLowerStrip "laptop") = none ∧
    normalize_class "laptop" = -1 :=
  ⟨by decide, claim_C3.1 ("mobile", "phone") (by decide), rfl,
    claim_C3.2 "laptop" rfl⟩

/-- The lookup only depends on the lowered, stripped form of the input. -/
theorem normalize_class_pyLowerStrip (s : String) :
    normalize_class (pyLowerStrip s) = normalize_class s := by
  show ((match CLASS_MAPPING.find?
      (fun kv => pyLower kv.1 == pyLowerStrip (pyLowerStrip s)) with
    | some kv => (TARGET_CLASSES.indexOf kv.2 : Int)
    | none => -1) : Int) = normalize_class s
  rw [pyLowerStrip_idem]
  rfl

/-- C4: synonym lookup is a case-insensitive exact match: `normalize_class`
agrees on a string and its lowercased, stripped form, and any two table
keys equal up to case map to the same canonical class. -/
theorem claim_C4 :
    (∀ s : String, normalize_class s = normalize_class (pyLowerStrip s)) ∧
    (∀ t1 ∈ CLASS_MAPPING, ∀ t2 ∈ CLASS_MAPPING,
      pyLower t1.1 = pyLower t2.1 → t1.2 = t2.2) := by
  constructor
  · intro s
    exact (normalize_class_pyLowerStrip s).symm
  · decide

/-- C4 (witness): concrete instantiation of both parts. -/
theorem claim_C4_witness :
    normalize_class " Cell PHONE " = normalize_class (pyLowerStrip " Cell PHONE ") ∧
    ("phone", "phone") ∈ CLASS_MAPPING ∧
    ("phone", "phone").2 = ("phone", "phone").2 :=
  ⟨claim_C4.1 " Cell PHONE ", by decide,
    claim_C4.2 ("phone", "phone") (by decide) ("phone", "phone") (by decide) rfl⟩

/-- C5: an annotation line with fewer than 5 whitespace-separated fields is
never present in the merged output: every line of every label file in the
merged tree has at least 5 fields. -/
theorem claim_C5 {prev : Option MergedFS} {raw : List (String × Dataset)}
    {fs : MergedFS} {t v : Nat}
    (h : prepare_dataset prev raw = Except.ok (fs, t, v)) :
    ∀ e : String × List String,
      (e ∈ fs.train.labels ∨ e ∈ fs.valid.labels) →
      ∀ l ∈ e.2, 5 ≤ (pySplit l).length := by
  intro e he l hl
  have hg := prepare_dataset_labels_good h
  rcases he with he | he
  · exact (hg.1 e he l hl).1
  · exact (hg.2 e he l hl).1

/-- C5 (witness): the merged output of the synthetic dataset. -/
theorem claim_C5_witness :
    prepare_dataset none rawC1 = Except.ok (mergedC1, 1, 1) ∧
    ("phone_1_im1.txt", ["1 0.1 0.2 0.3 0.4"]) ∈ mergedC1.train.labels ∧
    5 ≤ (pySplit "1 0.1 0.2 0.3 0.4").length :=
  ⟨rfl, by decide,
    claim_C5 (show prepare_dataset none rawC1 = Except.ok (mergedC1, 1, 1) from rfl)
      ("phone_1_im1.txt", ["1 0.1 0.2 0.3 0.4"]) (Or.inl (by decide))
      "1 0.1 0.2 0.3 0.4" (by decide)⟩

/-- C6: every annotation line in the merged output carries a canonical
class index in `0..3`; a kept line is exactly the class name found at the
original index in the source class list, mapped through the table to a
non-negative canonical index; and a line whose class has no mapping is
silently dropped (`ok none`, not an error). -/
theorem claim_C6 :
    (∀ (prev : Option MergedFS) (raw : List (String × Dataset))
      (fs : MergedFS) (t v : Nat),
      prepare_dataset prev raw = Except.ok (fs, t, v) →
      ∀ e : String × List String,
        (e ∈ fs.train.labels ∨ e ∈ fs.valid.labels) →
        ∀ l ∈ e.2, ∃ k : Int, 0 ≤ k ∧ k < 4 ∧
          (pySplit l).headD "" = toString k) ∧
    (∀ (sc : List String) (line r : String),
      convertLine sc line = Except.ok (some r) →
      ∃ old name, pyInt ((pySplit (pyStrip line)).headD "") = some old ∧
        pyGet sc old = some name ∧ 0 ≤ normalize_class name ∧
        normalize_class name < 4 ∧
        r = joinSpace (toString (normalize_class name)
          :: (pySplit (pyStrip line)).tail)) ∧
    (∀ (sc : List String) (line : String) (old : Int) (name : String),
      pyInt ((pySplit (pyStrip line)).headD "") = some old →
      old < (sc.length : Int) → pyGet sc old = some name →
      normalize_class name < 0 → convertLine sc line = Except.ok none) := by
  refine ⟨?_, ?_, ?_⟩
  · intro prev raw fs t v h e he l hl
    have hg := prepare_dataset_labels_good h
    rcases he with he | he
    · exact (hg.1 e he l hl).2
    · exact (hg.2 e he l hl).2
  · intro sc line r h
    obtain ⟨old, name, hint, _, hget, hn, hr, _⟩ := convertLine_ok_some h
    exact ⟨old, name, hint, hget, hn, normalize_class_lt_four name, hr⟩
  · intro sc line old name hint hlt hget hn
    exact convertLine_drop_unmapped hint hlt hget hn

/-- C6 (witness): all three parts at concrete inputs. -/
theorem claim_C6_witness :
    (∃ k : Int, 0 ≤ k ∧ k < 4 ∧
      (pySplit "1 0.1 0.2 0.3 0.4").headD "" = toString k) ∧
    (∃ old name,
      pyInt ((pySplit (pyStrip "0 0.1 0.2 0.3 0.4")).headD "") = some old ∧
      pyGet ["Mobile"] old = some name ∧ 0 ≤ normalize_class name ∧
      normalize_class name < 4 ∧
      "1 0.1 0.2 0.3 0.4" = joinSpace (toString (normalize_class name)
        :: (pySplit (pyStrip "0 0.1 0.2 0.3 0.4")).tail)) ∧
    convertLine ["laptop"] "0 0.1 0.2 0.3 0.4" = Except.ok none :=
  ⟨claim_C6.1 none rawC1 mergedC1 1 1
      (show prepare_dataset none rawC1 = Except.ok (mergedC1, 1, 1) from rfl)
      ("phone_1_im1.txt", ["1 0.1 0.2 0.3 0.4"]) (Or.inl (by decide))
      "1 0.1 0.2 0.3 0.4" (by decide),
    claim_C6.2.1 ["Mobile"] "0 0.1 0.2 0.3 0.4" "1 0.1 0.2 0.3 0.4" rfl,
    claim_C6.2.2 ["laptop"] "0 0.1 0.2 0.3 0.4" 0 "laptop" rfl (by decide)
      rfl (by decide)⟩

/-- C7: the merge end state is independent of any prior merged output (the
output directory is wiped unconditionally), so re-running `prepare_dataset`
on the same raw inputs reproduces the same end state. -/
theorem claim_C7 :
    (∀ (prev prev' : Option MergedFS) (raw : List (String × Dataset)),
      prepare_dataset prev raw = prepare_dataset prev' raw) ∧
    (∀ (prev : Option MergedFS) (raw : List (String × Dataset))
      (fs : MergedFS) (t v : Nat),
      prepare_dataset prev raw = Except.ok (fs, t, v) →
      prepare_dataset (some fs) raw = Except.ok (fs, t, v)) := by
  have hind : ∀ (prev prev' : Option MergedFS) (raw : List (String × Dataset)),
      prepare_dataset prev raw = prepare_dataset prev' raw := by
    intro prev prev' raw
    unfold prepare_dataset
    rw [mergeStart_eq, mergeStart_eq]
  refine ⟨hind, ?_⟩
  intro prev raw fs t v h
  rw [hind (some fs) prev raw]
  exact h

/-- C7 (witness): rebuilding after a first build reproduces it. -/
theorem claim_C7_witness :
    prepare_dataset none rawC1 = Except.ok (mergedC1, 1, 1) ∧
    prepare_dataset (some mergedC1) rawC1 = Except.ok (mergedC1, 1, 1) :=
  ⟨rfl, claim_C7.2 none rawC1 mergedC1 1 1
    (show prepare_dataset none rawC1 = Except.ok (mergedC1, 1, 1) from rfl)⟩

/-- C8: running the fetcher twice performs no work on the second run — the
second pass leaves the state (directories AND network-call count)
unchanged — and each per-dataset step is a strict skip whenever a directory
of that name already exists. -/
theorem claim_C8 :
    (∀ st : FetchState,
      download_datasets (download_datasets st) = download_datasets st) ∧
    (∀ st : FetchState,
      (download_datasets (download_datasets st)).networkCalls
        = (download_datasets st).networkCalls) ∧
    (∀ (st : FetchState) (entry : String × String),
      entry.1 ∈ st.dirs → fetchStep st entry = st) := by
  have hidem : ∀ st : FetchState,
      download_datasets (download_datasets st) = download_datasets st := by
    intro st
    unfold download_datasets
    exact runFetch_skip_all ROBOFLOW_DATASETS _
      (fun p hp => runFetch_names_present ROBOFLOW_DATASETS st p hp)
  exact ⟨hidem, fun st => congrArg FetchState.networkCalls (hidem st),
    fun st entry h => fetchStep_skip h⟩

/-- C8 (witness): a dataset whose directory exists is skipped outright. -/
theorem claim_C8_witness :
    "phone_1" ∈ (FetchState.mk ["phone_1"] 5).dirs ∧
    fetchStep (FetchState.mk ["phone_1"] 5) ("phone_1", "url")
      = FetchState.mk ["phone_1"] 5 :=
  ⟨by decide,
    claim_C8.2.2 (FetchState.mk ["phone_1"] 5) ("phone_1", "url") (by decide)⟩

/-- C9: a dataset root in which the subdirectory scan finds no `data.yaml`
is skipped: `convert_labels` returns count 0 and leaves the output split
untouched (zero images, zero label files contributed). -/
theorem claim_C9 (dsName : String) (ds : Dataset) (out : OutSplit)
    (hy : ds.dataYaml = none) :
    convert_labels dsName ds out = Except.ok (out, 0) := by
  unfold convert_labels
  rw [hy]

/-- C9 (witness): a dataset with no `data.yaml` contributes nothing. -/
theorem claim_C9_witness :
    (Dataset.mk none none none none).dataYaml = none ∧
    convert_labels "phone_1" (Dataset.mk none none none none) emptyOut
      = Except.ok (emptyOut, 0) :=
  ⟨rfl, claim_C9 "phone_1" (Dataset.mk none none none none) emptyOut rfl⟩

/-- C10: every recognized image of every existing source split is copied
(dataset-prefix renamed) into the merged images folder, independently of
its label file: with no paired label file, or with all annotation lines
dropped, the image is still copied and the label store and count are
untouched; a label file is written (and the count incremented) exactly when
at least one line survives. Concretely (`dsC10`): three images are copied,
one label file is written, and the returned count is 1 — the count counts
written label files, not copied images. -/
theorem claim_C10 :
    (∀ (dsName : String) (ds : Dataset) (sc : List String) (spName : String)
      (sd : SplitDir) (img : String) (out out₁ : OutSplit) (c : Nat),
      ds.dataYaml = some sc →
      (spName, some sd) ∈
        [("train", ds.train), ("valid", ds.valid), ("test", ds.test)] →
      img ∈ sd.imgFiles → hasImageExt img = true →
      convert_labels dsName ds out = Except.ok (out₁, c) →
      (dsName ++ "_" ++ img) ∈ out₁.images.map Prod.fst) ∧
    (∀ (dsName : String) (sc : List String) (sp : String) (sd : SplitDir)
      (img : String) (st : OutSplit × Nat),
      hasImageExt img = true →
      sd.labels.lookup (splitextRoot img ++ ".txt") = none →
      processFile dsName sc sp sd img st =
        Except.ok (⟨fsWrite st.1.images (dsName ++ "_" ++ img)
          (dsName ++ "/" ++ sp ++ "/images/" ++ img), st.1.labels⟩, st.2)) ∧
    (∀ (dsName : String) (sc : List String) (sp : String) (sd : SplitDir)
      (img : String) (lines : List String) (st : OutSplit × Nat),
      hasImageExt img = true →
      sd.labels.lookup (splitextRoot img ++ ".txt") = some lines →
      convertLines sc lines = Except.ok [] →
      processFile dsName sc sp sd img st =
        Except.ok (⟨fsWrite st.1.images (dsName ++ "_" ++ img)
          (dsName ++ "/" ++ sp ++ "/images/" ++ img), st.1.labels⟩, st.2)) ∧
    (∀ (dsName : String) (sc : List String) (sp : String) (sd : SplitDir)
      (img : String) (lines new_lines : List String) (st : OutSplit × Nat),
      hasImageExt img = true →
      sd.labels.lookup (splitextRoot img ++ ".txt") = some lines →
      convertLines sc lines = Except.ok new_lines →
      new_lines.isEmpty = false →
      processFile dsName sc sp sd img st =
        Except.ok (⟨fsWrite st.1.images (dsName ++ "_" ++ img)
          (dsName ++ "/" ++ sp ++ "/images/" ++ img),
          fsWrite st.1.labels
            (dsName ++ "_" ++ (splitextRoot img ++ ".txt"))
            new_lines⟩, st.2 + 1)) ∧
    (convert_labels "phone_1" dsC10 emptyOut = Except.ok (outC10, 1) ∧
      outC10.images.length = 3 ∧ outC10.labels.length = 1) := by
  refine ⟨?_, ?_, ?_, ?_, rfl, rfl, rfl⟩
  · intro dsName ds sc spName sd img out out₁ c hy hmem himg hext h
    exact convert_labels_img_present hy hmem himg hext h
  · intro dsName sc sp sd img st hext hlk
    exact processFile_no_label hext hlk
  · intro dsName sc sp sd img lines st hext hlk hcv
    exact processFile_all_dropped hext hlk hcv
  · intro dsName sc sp sd img lines new_lines st hext hlk hcv hne
    exact processFile_label_written hext hlk hcv hne

/-- C10 (witness): the universal parts at concrete inputs. -/
theorem claim_C10_witness :
    ("phone_1_im1.jpg" ∈ outC1.images.map Prod.fst) ∧
    processFile "phone_1" ["person", "laptop"] "train"
      ⟨["c.jpeg"], []⟩ "c.jpeg" (emptyOut, 0) =
      Except.ok (⟨fsWrite emptyOut.images "phone_1_c.jpeg"
        "phone_1/train/images/c.jpeg", emptyOut.labels⟩, 0) ∧
    processFile "phone_1" ["person", "laptop"] "train"
      ⟨["b.png"], [("b.txt", ["1 0.1 0.2 0.3 0.4"])]⟩ "b.png" (emptyOut, 0) =
      Except.ok (⟨fsWrite emptyOut.images "phone_1_b.png"
        "phone_1/train/images/b.png", emptyOut.labels⟩, 0) ∧
    processFile "phone_1" ["person", "laptop"] "train"
      ⟨["a.jpg"], [("a.txt", ["0 0.1 0.2 0.3 0.4"])]⟩ "a.jpg" (emptyOut, 0) =
      Except.ok (⟨fsWrite emptyOut.images "phone_1_a.jpg"
        "phone_1/train/images/a.jpg",
        fsWrite emptyOut.labels "phone_1_a.txt"
          ["0 0.1 0.2 0.3 0.4"]⟩, 1) :=
  ⟨claim_C10.1 "phone_1" dsC1 ["Mobile"] "train"
      ⟨["im1.jpg"], [("im1.txt", ["0 0.1 0.2 0.3 0.4"])]⟩ "im1.jpg"
      emptyOut outC1 1 rfl (by decide) (by decide) (by decide)
      (show convert_labels "phone_1" dsC1 emptyOut
        = Except.ok (outC1, 1) from rfl),
    claim_C10.2.1 "phone_1" ["person", "laptop"] "train"
      ⟨["c.jpeg"], []⟩ "c.jpeg" (emptyOut, 0) (by decide) rfl,
    claim_C10.2.2.1 "phone_1" ["person", "laptop"] "train"
      ⟨["b.png"], [("b.txt", ["1 0.1 0.2 0.3 0.4"])]⟩ "b.png"
      ["1 0.1 0.2 0.3 0.4"] (emptyOut, 0) (by decide) rfl rfl,
    claim_C10.2.2.2.1 "phone_1" ["person", "laptop"] "train"
      ⟨["a.jpg"], [("a.txt", ["0 0.1 0.2 0.3 0.4"])]⟩ "a.jpg"
      ["0 0.1 0.2 0.3 0.4"] ["0 0.1 0.2 0.3 0.4"] (emptyOut, 0)
      (by decide) rfl rfl rfl⟩

end AntiCheat

